import Mathlib

/-!
Verification of the session-tracking and persistent-history core of
`tarpit_watch.py` (TPOT tar-pit watcher, v0.6.7).

The Python source is shallowly embedded: dictionaries become association
lists with Python-dict semantics (replace-in-place on existing key, append
on new key), `time.time()` floats become rationals, JSON documents become
an explicit `Json` inductive, and the I/O performed by `update_sessions`
(the conntrack snapshot, the wall-clock string) is passed in as arguments.
-/

namespace TarpitWatch

/-- `VERSION` constant of the source. -/
def VERSION : String := "0.6.7"

/-- `DEFAULT_EXCLUDE_ADMIN_PORTS = {64295, 64294, 64297}`. -/
def DEFAULT_EXCLUDE_ADMIN_PORTS : List Nat := [64295, 64294, 64297]

/-- `THEMES` list of the source (only the head is relevant to the core). -/
def THEMES : List String :=
  ["amber", "matrix", "ocean", "ice", "violet",
   "sunset", "mono", "classic", "forest", "neon",
   "steel", "crimson", "cyan", "gold", "lava",
   "mint", "plasma", "midnight", "desert", "emerald",
   "slate", "royal", "retro", "hacker", "solar"]

/-- Python `s.startswith(p)`, on the character lists of the strings. -/
def pyStartsWith (s p : String) : Bool :=
  List.isPrefixOf p.data s.data

/-- Split a character list at every occurrence of `c` (Python `str.split(sep)`
with a one-character separator; `"".split(".") == [""]`). -/
def splitOnChar (c : Char) : List Char → List (List Char)
  | [] => [[]]
  | a :: rest =>
    match splitOnChar c rest with
    | [] => if a = c then [[], []] else [[a]]
    | h :: t => if a = c then [] :: h :: t else (a :: h) :: t

/-- Python `ip.split(".")`. -/
def pySplitDot (s : String) : List String :=
  (splitOnChar '.' s.data).map String.mk

/-- Decimal digit run to a number; `none` on an empty or non-digit run. -/
def digitsToNat : List Char → Option Nat
  | [] => none
  | cs =>
    if cs.all Char.isDigit then
      some (cs.foldl (fun acc c => acc * 10 + (c.toNat - '0'.toNat)) 0)
    else none

/-- Python `int(s)` on a plain decimal string: an optional sign followed by
digits; anything else raises, modelled as `none`. -/
def pyInt (s : String) : Option Int :=
  match s.data with
  | '-' :: rest => (digitsToNat rest).map (fun n => -(n : Int))
  | '+' :: rest => (digitsToNat rest).map (fun n => (n : Int))
  | cs => (digitsToNat cs).map (fun n => (n : Int))

/-- `_is_private_ipv4` of the source, translated clause by clause. -/
def _is_private_ipv4 (ip : String) : Bool :=
  if pyStartsWith ip "10." then true
  else if pyStartsWith ip "192.168." then true
  else if pyStartsWith ip "127." then true
  else if pyStartsWith ip "169.254." then true
  else if pyStartsWith ip "172." then
    match (pySplitDot ip).get? 1 with
    | none => false
    | some comp =>
      match pyInt comp with
      | none => false
      | some x => decide (16 ≤ x ∧ x ≤ 31)
  else false

/-- Stated from the claim's words, for comparison with `_is_private_ipv4`:
true exactly when the address starts with `10.`, `192.168.`, `127.` or
`169.254.`, or starts with `172.` and its second dot-separated component
parses as an integer between 16 and 31 inclusive. -/
def private_ipv4_claim (ip : String) : Bool :=
  pyStartsWith ip "10." || pyStartsWith ip "192.168." || pyStartsWith ip "127." ||
  pyStartsWith ip "169.254." ||
  (pyStartsWith ip "172." &&
    (match (pySplitDot ip).get? 1 with
     | none => false
     | some comp =>
       match pyInt comp with
       | none => false
       | some x => decide (16 ≤ x ∧ x ≤ 31)))

/-! ### Association lists with Python-dict semantics -/

/-- `d.get(k)` / `d[k]` lookup: first (unique, for well-formed dicts) match. -/
def lookupA {κ α : Type} [DecidableEq κ] : List (κ × α) → κ → Option α
  | [], _ => none
  | (k', v) :: t, k => if k' = k then some v else lookupA t k

/-- `d.get(k, dflt)`. -/
def lookupD {κ α : Type} [DecidableEq κ] (l : List (κ × α)) (k : κ) (dflt : α) : α :=
  (lookupA l k).getD dflt

/-- `d[k] = v`: replace in place when the key is present, append otherwise. -/
def setA {κ α : Type} [DecidableEq κ] : List (κ × α) → κ → α → List (κ × α)
  | [], k, v => [(k, v)]
  | (k', v') :: t, k, v =>
    if k' = k then (k, v) :: t else (k', v') :: setA t k v

/-- `d.setdefault(k, v)`. -/
def setDefaultA {κ α : Type} [DecidableEq κ] (l : List (κ × α)) (k : κ) (v : α) :
    List (κ × α) :=
  if (lookupA l k).isSome then l else l ++ [(k, v)]

/-! ### Data model -/

/-- One parsed `conntrack -L` row (`read_conntrack_tcp`); only the original
direction's fields are consumed by `update_sessions`. -/
structure Row where
  timeout : Nat
  state : String
  src : String
  dst : String
  sport : Nat
  dport : Nat
  deriving Repr, DecidableEq

/-- The `Session` dataclass. Timestamps (`time.time()` floats) are rationals. -/
structure Session where
  key : String
  src_ip : String
  src_port : Nat
  dst_ip : String
  dst_port : Nat
  state : String
  timeout_s : Nat
  first_seen : ℚ
  last_seen : ℚ
  deriving Repr, DecidableEq

/-- One entry of `stats["ended_history"]`. -/
structure EndedRec where
  ended_ts : String
  src : String
  sport : Nat
  dst : String
  dport : Nat
  state : String
  duration_s : Int
  container : String
  deriving Repr, DecidableEq

/-- The persisted stats document, in its fully-defaulted in-memory shape. -/
structure Stats where
  version : String
  created : String
  updated : String
  notes : List String
  theme : String
  lifetime_port_hits : List (String × Nat)
  ended_history : List EndedRec
  deriving Repr, DecidableEq

/-- The `App` attributes consulted by `update_sessions`, fixed for one call:
filter toggles, `args.grace` and `args.history_n`. -/
structure Config where
  hide_private : Bool
  hide_admin : Bool
  mode : String
  grace : ℚ
  history_n : Nat
  deriving Repr, DecidableEq

/-- The mutable `App` state the core owns: `self.sessions`,
`self.port_hits_run` and `self.stats`. -/
structure AppState where
  sessions : List (String × Session)
  port_hits_run : List (Nat × Nat)
  stats : Stats
  deriving Repr, DecidableEq

/-- `key = f"{src_ip}:{sport}->{dst}:{dport}"`. -/
def flow_key (r : Row) : String :=
  r.src ++ ":" ++ toString r.sport ++ "->" ++ r.dst ++ ":" ++ toString r.dport

/-- The four discard tests at the top of the per-row loop of
`update_sessions`, in source order: watched set, private source, admin
port, established-only mode. -/
def row_passes (cfg : Config) (watched : List Nat) (r : Row) : Bool :=
  decide (r.dport ∈ watched) &&
  !(cfg.hide_private && _is_private_ipv4 r.src) &&
  !(cfg.hide_admin && decide (r.dport ∈ DEFAULT_EXCLUDE_ADMIN_PORTS)) &&
  !(decide (cfg.mode = "EST") && decide (r.state ≠ "ESTABLISHED"))

/-- `App.container_for_port`: the docker port→name map, `"unmapped"` when the
port is absent or maps to a falsy (empty) name. -/
def container_for_port (portMap : Nat → Option String) (port : Nat) : String :=
  match portMap port with
  | none => "unmapped"
  | some name => if name = "" then "unmapped" else name

/-- The loop-local state of the per-row pass of `update_sessions`:
`self.sessions`, `seen_keys`, `state_counts`, `self.port_hits_run` and
`self.stats["lifetime_port_hits"]`. -/
structure P1 where
  sessions : List (String × Session)
  seen : List String
  state_counts : List (String × Nat)
  run : List (Nat × Nat)
  lph : List (String × Nat)
  deriving Repr, DecidableEq

/-- One iteration of the `for r in rows` loop of `update_sessions`: discard
tests, `seen_keys.add`, `state_counts` bump, then create-or-update of the
session keyed by `flow_key r` with the first-sight counter increments. -/
def step (cfg : Config) (watched : List Nat) (now : ℚ) (p1 : P1) (r : Row) : P1 :=
  if row_passes cfg watched r then
    let key := flow_key r
    let seen' := if key ∈ p1.seen then p1.seen else p1.seen ++ [key]
    let sc := setA p1.state_counts r.state (lookupD p1.state_counts r.state 0 + 1)
    match lookupA p1.sessions key with
    | none =>
      { sessions := p1.sessions ++ [(key,
          { key := key, src_ip := r.src, src_port := r.sport, dst_ip := r.dst,
            dst_port := r.dport, state := r.state, timeout_s := r.timeout,
            first_seen := now, last_seen := now })],
        seen := seen', state_counts := sc,
        run := setA p1.run r.dport (lookupD p1.run r.dport 0 + 1),
        lph := setA p1.lph (toString r.dport) (lookupD p1.lph (toString r.dport) 0 + 1) }
    | some s =>
      { sessions := setA p1.sessions key
          { s with state := r.state, timeout_s := r.timeout, last_seen := now },
        seen := seen', state_counts := sc, run := p1.run, lph := p1.lph }
  else p1

/-- The per-row pass over the whole conntrack snapshot. -/
def phase1 (cfg : Config) (watched : List Nat) (now : ℚ) (σ : AppState)
    (rows : List Row) : P1 :=
  rows.foldl (step cfg watched now)
    { sessions := σ.sessions, seen := [], state_counts := [],
      run := σ.port_hits_run, lph := σ.stats.lifetime_port_hits }

/-- The expiry test of `update_sessions`: missing from this poll's
`seen_keys` and `(now - sess.last_seen) >= grace`. -/
def is_expired (grace now : ℚ) (seen : List String) (e : String × Session) : Bool :=
  !decide (e.1 ∈ seen) && decide (grace ≤ now - e.2.last_seen)

/-- Finalization of one ended session into an `ended_history` entry:
`duration_s = int(max(0.0, last_seen - first_seen))`. -/
def mkEnded (endedTs : String) (portMap : Nat → Option String) (sess : Session) :
    EndedRec :=
  { ended_ts := endedTs, src := sess.src_ip, sport := sess.src_port,
    dst := sess.dst_ip, dport := sess.dst_port, state := sess.state,
    duration_s := ⌊max 0 (sess.last_seen - sess.first_seen)⌋,
    container := container_for_port portMap sess.dst_port }

/-- Everything `App.update_sessions` produces: the new mutable state, the
returned `(state_counts, active)` pair, and the loop-locals `ended` and
`seen_keys` that the expiry contract speaks about. -/
structure UpdateResult where
  state : AppState
  state_counts : List (String × Nat)
  active : List Session
  ended : List Session
  seen : List String

/-- `App.update_sessions`. The conntrack snapshot `rows` and the wall-clock
string `endedTs` (both read from the outside world in the source) are
arguments; `now` is the `time.time()` argument of the method. -/
def update_sessions (cfg : Config) (portMap : Nat → Option String)
    (endedTs : String) (σ : AppState) (watched : List Nat) (rows : List Row)
    (now : ℚ) : UpdateResult :=
  let p1 := phase1 cfg watched now σ rows
  let endedSessions := (p1.sessions.filter (is_expired cfg.grace now p1.seen)).map Prod.snd
  let sessions' := p1.sessions.filter (fun e => !is_expired cfg.grace now p1.seen e)
  let hist0 := σ.stats.ended_history ++ endedSessions.map (mkEnded endedTs portMap)
  let hist := (hist0.mergeSort (fun a b => decide (b.duration_s ≤ a.duration_s))).take
      cfg.history_n
  { state :=
      { sessions := sessions', port_hits_run := p1.run,
        stats := { σ.stats with lifetime_port_hits := p1.lph, ended_history := hist } },
    state_counts := p1.state_counts,
    active := sessions'.map Prod.snd,
    ended := endedSessions,
    seen := p1.seen }

/-! ### Persistence layer -/

/-- JSON values, the codomain of `json.loads`. Object fields are kept in a
list; Python `dict` equality ignores field order, so encoders below fix one
canonical order per document shape. -/
inductive Json where
  | null
  | bool (b : Bool)
  | num (n : Int)
  | str (s : String)
  | arr (elems : List Json)
  | obj (fields : List (String × Json))

/-- Whether a parsed value is a JSON object (`isinstance(d, dict)`). -/
def Json.isObj : Json → Bool
  | .obj _ => true
  | _ => false

/-- Encoding of one `ended_history` entry, keys in `sort_keys=True` order. -/
def ended_to_json (e : EndedRec) : Json :=
  .obj [("container", .str e.container), ("dport", .num e.dport),
        ("dst", .str e.dst), ("duration_s", .num e.duration_s),
        ("ended_ts", .str e.ended_ts), ("sport", .num e.sport),
        ("src", .str e.src), ("state", .str e.state)]

/-- Encoding of a stats document, keys in `sort_keys=True` order: the shape
`json.dumps` writes and `json.loads` reads back. -/
def stats_to_json (s : Stats) : Json :=
  .obj [("created", .str s.created),
        ("ended_history", .arr (s.ended_history.map ended_to_json)),
        ("lifetime_port_hits", .obj (s.lifetime_port_hits.map
            (fun kv => (kv.1, Json.num kv.2)))),
        ("notes", .arr (s.notes.map .str)),
        ("theme", .str s.theme),
        ("updated", .str s.updated),
        ("version", .str s.version)]

/-- The state of `~/.tarpit_watch_stats.json` as `load_stats` can find it:
missing, unreadable/unparsable (`err` is the Python repr of the exception),
or parsed to a JSON value. -/
inductive FileState where
  | absent
  | unparsable (err : String)
  | parsed (j : Json)

/-- The freshly initialized document both failure branches of `load_stats`
build (`created`/`updated` stand for the two `_now_local()` calls). -/
def freshStats (nowStr : String) (notes : List String) : Stats :=
  { version := VERSION, created := nowStr, updated := nowStr, notes := notes,
    theme := THEMES.headD "", lifetime_port_hits := [], ended_history := [] }

/-- The note text of the `except` branch of `load_stats`. -/
def failNote (err : String) : String :=
  "Failed to load stats; started new. error=" ++ err

/-- `load_stats`: fresh document when the file is absent; on a parsed dict,
`setdefault` the four optional keys and overwrite `version`; any failure
(unparsable file, or a parsed non-dict, which raises
`ValueError("stats not dict")`) yields a fresh document carrying the
failure note. -/
def load_stats (fs : FileState) (nowStr : String) : Json :=
  match fs with
  | .absent => stats_to_json (freshStats nowStr [])
  | .unparsable e => stats_to_json (freshStats nowStr [failNote e])
  | .parsed j =>
    match j with
    | .obj fields =>
      let f1 := setDefaultA fields "notes" (.arr [])
      let f2 := setDefaultA f1 "lifetime_port_hits" (.obj [])
      let f3 := setDefaultA f2 "ended_history" (.arr [])
      let f4 := setDefaultA f3 "theme" (.str (THEMES.headD ""))
      .obj (setA f4 "version" (.str VERSION))
    | _ => stats_to_json (freshStats nowStr [failNote "ValueError('stats not dict')"])

/-- `save_stats`: stamp `version` and `updated` on the in-memory document,
then atomically write its serialization. Returns the mutated document and
the file content it wrote. -/
def save_stats (stats : Stats) (nowStr : String) : Stats × Json :=
  let s := { stats with version := VERSION, updated := nowStr }
  (s, stats_to_json s)

/-- `App.reset_lifetime_hits`: clear `stats["lifetime_port_hits"]`, then
`save_stats(self.stats)` (which stamps `version` and `updated`). -/
def reset_lifetime_hits (stats : Stats) (nowStr : String) : Stats :=
  (save_stats { stats with lifetime_port_hits := [] } nowStr).1

/-! ### Poll sequences -/

/-- The external inputs of one `update_sessions` call. -/
structure PollInput where
  cfg : Config
  portMap : Nat → Option String
  endedTs : String
  watched : List Nat
  rows : List Row
  now : ℚ

/-- One poll tick against the current state. -/
def do_poll (σ : AppState) (p : PollInput) : UpdateResult :=
  update_sessions p.cfg p.portMap p.endedTs σ p.watched p.rows p.now

/-- A run of the reconciliation loop over a sequence of polls. -/
def runPolls (σ : AppState) (polls : List PollInput) : AppState :=
  polls.foldl (fun σ p => (do_poll σ p).state) σ

/-- The `App.__init__` state: empty session store and run counters, stats as
loaded. -/
def initState (stats0 : Stats) : AppState :=
  { sessions := [], port_hits_run := [], stats := stats0 }

/-- Number of tracked sessions whose value satisfies `f`; the bookkeeping
measure relating the port-hit counters to the store. -/
def pcount (f : Session → Bool) (l : List (String × Session)) : Nat :=
  (l.filter (fun e => f e.2)).length

/-- Concrete fixture: the default toggle state of `App.__init__` with the
default grace and history capacity. -/
def sampleCfg : Config :=
  { hide_private := true, hide_admin := true, mode := "ALL", grace := 8,
    history_n := 50 }

/-- Concrete fixture: a minimal stats document. -/
def sampleStats : Stats :=
  { version := "0.6.7", created := "c", updated := "u", notes := [],
    theme := "amber", lifetime_port_hits := [], ended_history := [] }

/-- Concrete fixture: one conntrack row to watched port 22. -/
def sampleRow : Row :=
  { timeout := 30, state := "ESTABLISHED", src := "203.0.113.9",
    dst := "198.51.100.1", sport := 4444, dport := 22 }

/-- Concrete fixture: the session the watcher would build from `sampleRow`
at time 0, last seen at time 5. -/
def sampleSession : Session :=
  { key := "203.0.113.9:4444->198.51.100.1:22", src_ip := "203.0.113.9",
    src_port := 4444, dst_ip := "198.51.100.1", dst_port := 22,
    state := "ESTABLISHED", timeout_s := 30, first_seen := 0, last_seen := 5 }

/-- Concrete fixture: an app state tracking exactly `sampleSession`. -/
def sampleApp : AppState :=
  { sessions := [(sampleSession.key, sampleSession)], port_hits_run := [],
    stats := sampleStats }

/-! ### Association-list lemmas -/

theorem mem_setA {κ α : Type} [DecidableEq κ] {l : List (κ × α)} {k : κ} {v : α}
    {e : κ × α} (h : e ∈ setA l k v) : e ∈ l ∨ e = (k, v) := by
  induction l with
  | nil => simpa [setA] using h
  | cons e' t ih =>
    by_cases he : e'.1 = k
    · simp only [setA, if_pos he, List.mem_cons] at h
      rcases h with h | h
      · exact Or.inr h
      · exact Or.inl (List.mem_cons_of_mem _ h)
    · simp only [setA, if_neg he, List.mem_cons] at h
      rcases h with h | h
      · exact Or.inl (h ▸ List.mem_cons_self _ _)
      · rcases ih h with h' | h'
        · exact Or.inl (List.mem_cons_of_mem _ h')
        · exact Or.inr h'

theorem lookupA_setA_self {κ α : Type} [DecidableEq κ] (l : List (κ × α)) (k : κ)
    (v : α) : lookupA (setA l k v) k = some v := by
  induction l with
  | nil => simp [setA, lookupA]
  | cons e t ih =>
    by_cases h : e.1 = k
    · simp [setA, h, lookupA]
    · simp [setA, h, lookupA, ih]

theorem lookupA_setA_ne {κ α : Type} [DecidableEq κ] (l : List (κ × α)) (k k' : κ)
    (v : α) (h : k' ≠ k) : lookupA (setA l k v) k' = lookupA l k' := by
  induction l with
  | nil => simp [setA, lookupA, Ne.symm h]
  | cons e t ih =>
    by_cases he : e.1 = k
    · simp [setA, he, lookupA, Ne.symm h]
    · simp [setA, he, lookupA, ih]

theorem lookupD_setA_self {κ α : Type} [DecidableEq κ] (l : List (κ × α)) (k : κ)
    (v d : α) : lookupD (setA l k v) k d = v := by
  rw [lookupD, lookupA_setA_self]; rfl

theorem lookupD_setA_ne {κ α : Type} [DecidableEq κ] (l : List (κ × α)) (k k' : κ)
    (v d : α) (h : k' ≠ k) : lookupD (setA l k v) k' d = lookupD l k' d := by
  rw [lookupD, lookupA_setA_ne _ _ _ _ h]; rfl

theorem lookupA_append {κ α : Type} [DecidableEq κ] (l₁ l₂ : List (κ × α)) (k : κ) :
    lookupA (l₁ ++ l₂) k = (lookupA l₁ k).or (lookupA l₂ k) := by
  induction l₁ with
  | nil => simp [lookupA]
  | cons e t ih =>
    by_cases h : e.1 = k
    · simp [lookupA, h]
    · simp [lookupA, h, ih]

theorem lookupA_mem {κ α : Type} [DecidableEq κ] {l : List (κ × α)} {k : κ} {v : α}
    (h : lookupA l k = some v) : (k, v) ∈ l := by
  induction l with
  | nil => simp [lookupA] at h
  | cons e t ih =>
    by_cases he : e.1 = k
    · simp [lookupA, he] at h
      subst he h
      exact List.mem_cons_self _ _
    · simp [lookupA, he] at h
      exact List.mem_cons_of_mem _ (ih h)

theorem lookupA_eq_none_iff {κ α : Type} [DecidableEq κ] (l : List (κ × α)) (k : κ) :
    lookupA l k = none ↔ k ∉ l.map Prod.fst := by
  induction l with
  | nil => simp [lookupA]
  | cons e t ih =>
    by_cases he : e.1 = k
    · simp [lookupA, he]
    · simp [lookupA, he, ih, Ne.symm he]

theorem setA_of_lookupA_none {κ α : Type} [DecidableEq κ] {l : List (κ × α)} {k : κ}
    (v : α) (h : lookupA l k = none) : setA l k v = l ++ [(k, v)] := by
  induction l with
  | nil => simp [setA]
  | cons e t ih =>
    by_cases he : e.1 = k
    · simp [lookupA, he] at h
    · simp [lookupA, he] at h
      simp [setA, he, ih h]

theorem keys_setA_of_mem {κ α : Type} [DecidableEq κ] {l : List (κ × α)} {k : κ}
    {s : α} (v : α) (h : lookupA l k = some s) :
    (setA l k v).map Prod.fst = l.map Prod.fst := by
  induction l with
  | nil => simp [lookupA] at h
  | cons e t ih =>
    by_cases he : e.1 = k
    · simp [setA, he]
    · simp [lookupA, he] at h
      simp [setA, he, ih h]

theorem nodup_keys_setA {κ α : Type} [DecidableEq κ] {l : List (κ × α)} (k : κ)
    (v : α) (h : (l.map Prod.fst).Nodup) : ((setA l k v).map Prod.fst).Nodup := by
  cases hl : lookupA l k with
  | none =>
    rw [setA_of_lookupA_none v hl]
    have hk : k ∉ l.map Prod.fst := (lookupA_eq_none_iff l k).mp hl
    rw [List.map_append]
    refine List.Nodup.append h (List.nodup_singleton k) ?_
    intro a ha hb
    simp only [List.map_cons, List.map_nil, List.mem_singleton] at hb
    exact hk (hb ▸ ha)
  | some s => rw [keys_setA_of_mem v hl]; exact h

/-- Counting entries whose value satisfies `f` is unchanged by a `setA` that
replaces an existing value with one agreeing on `f`. -/
theorem countP_setA {κ α : Type} [DecidableEq κ] {l : List (κ × α)} {k : κ}
    {s : α} (v : α) (f : α → Bool) (h : lookupA l k = some s) (hf : f v = f s) :
    ((setA l k v).filter (fun e => f e.2)).length = (l.filter (fun e => f e.2)).length := by
  induction l with
  | nil => simp [lookupA] at h
  | cons e t ih =>
    by_cases he : e.1 = k
    · simp [lookupA, he] at h
      simp only [setA, if_pos he, List.filter_cons]
      rw [hf, h]
      cases hfe : f s <;> simp [hfe]
    · simp [lookupA, he] at h
      simp only [setA, if_neg he, List.filter_cons]
      cases hfe : f e.2 <;> simp [hfe, ih h]

/-! ### Lemmas about one iteration of the per-row loop -/

theorem step_of_not_passes (cfg : Config) (watched : List Nat) (now : ℚ) (p1 : P1)
    (r : Row) (h : row_passes cfg watched r = false) :
    step cfg watched now p1 r = p1 := by
  simp [step, h]

theorem step_seen_eq (cfg : Config) (watched : List Nat) (now : ℚ) (p1 : P1)
    (r : Row) (hp : row_passes cfg watched r = true) :
    (step cfg watched now p1 r).seen =
      if flow_key r ∈ p1.seen then p1.seen else p1.seen ++ [flow_key r] := by
  cases hl : lookupA p1.sessions (flow_key r) <;> simp [step, hp, hl]

theorem mem_seen_step (cfg : Config) (watched : List Nat) (now : ℚ) (p1 : P1)
    (r : Row) (k : String) :
    k ∈ (step cfg watched now p1 r).seen ↔
      k ∈ p1.seen ∨ (row_passes cfg watched r = true ∧ flow_key r = k) := by
  by_cases hp : row_passes cfg watched r
  · rw [step_seen_eq cfg watched now p1 r hp]
    by_cases hc : flow_key r ∈ p1.seen
    · simp only [if_pos hc, hp, true_and]
      constructor
      · exact Or.inl
      · rintro (h | h)
        · exact h
        · exact h ▸ hc
    · simp only [if_neg hc, hp, true_and, List.mem_append, List.mem_singleton]
      constructor
      · rintro (h | h)
        · exact Or.inl h
        · exact Or.inr h.symm
      · rintro (h | h)
        · exact Or.inl h
        · exact Or.inr h.symm
  · rw [step_of_not_passes cfg watched now p1 r (by simpa using hp)]
    constructor
    · exact Or.inl
    · rintro (h | ⟨h1, h2⟩)
      · exact h
      · exact absurd h1 hp

theorem step_sessions_lookup_other (cfg : Config) (watched : List Nat) (now : ℚ)
    (p1 : P1) (r : Row) (k : String)
    (h : ¬(row_passes cfg watched r = true ∧ flow_key r = k)) :
    lookupA (step cfg watched now p1 r).sessions k = lookupA p1.sessions k := by
  by_cases hp : row_passes cfg watched r
  · have hk : flow_key r ≠ k := fun he => h ⟨hp, he⟩
    cases hl : lookupA p1.sessions (flow_key r) with
    | none => simp [step, hp, hl, lookupA_append, lookupA, hk]
    | some s => simp [step, hp, hl, lookupA_setA_ne _ _ _ _ (Ne.symm hk)]
  · rw [step_of_not_passes cfg watched now p1 r (by simpa using hp)]

theorem step_sessions_isSome_mono (cfg : Config) (watched : List Nat) (now : ℚ)
    (p1 : P1) (r : Row) (k : String) (h : (lookupA p1.sessions k).isSome) :
    (lookupA (step cfg watched now p1 r).sessions k).isSome := by
  by_cases hpk : row_passes cfg watched r = true ∧ flow_key r = k
  · rcases hpk with ⟨hp, hk⟩
    subst hk
    cases hl : lookupA p1.sessions (flow_key r) with
    | none => rw [hl] at h; simp at h
    | some s => simp [step, hp, hl, lookupA_setA_self]
  · rw [step_sessions_lookup_other cfg watched now p1 r k hpk]; exact h

theorem step_first_seen (cfg : Config) (watched : List Nat) (now : ℚ) (p1 : P1)
    (r : Row) (k : String) (s : Session) (h : lookupA p1.sessions k = some s) :
    ∃ s', lookupA (step cfg watched now p1 r).sessions k = some s' ∧
      s'.first_seen = s.first_seen ∧ s'.key = s.key ∧ s'.src_ip = s.src_ip ∧
      s'.src_port = s.src_port ∧ s'.dst_ip = s.dst_ip ∧ s'.dst_port = s.dst_port := by
  by_cases hpk : row_passes cfg watched r = true ∧ flow_key r = k
  · rcases hpk with ⟨hp, hk⟩
    subst hk
    refine ⟨{ s with state := r.state, timeout_s := r.timeout, last_seen := now },
      ?_, rfl, rfl, rfl, rfl, rfl, rfl⟩
    simp [step, hp, h, lookupA_setA_self]
  · exact ⟨s, by rw [step_sessions_lookup_other cfg watched now p1 r k hpk]; exact h,
      rfl, rfl, rfl, rfl, rfl, rfl⟩

theorem step_nodup_keys (cfg : Config) (watched : List Nat) (now : ℚ) (p1 : P1)
    (r : Row) (h : (p1.sessions.map Prod.fst).Nodup) :
    ((step cfg watched now p1 r).sessions.map Prod.fst).Nodup := by
  by_cases hp : row_passes cfg watched r
  · cases hl : lookupA p1.sessions (flow_key r) with
    | none =>
      have hk : flow_key r ∉ p1.sessions.map Prod.fst := (lookupA_eq_none_iff _ _).mp hl
      simp only [step, if_pos hp, hl, List.map_append]
      refine List.Nodup.append h (List.nodup_singleton _) ?_
      intro a ha hb
      simp only [List.map_cons, List.map_nil, List.mem_singleton] at hb
      exact hk (hb ▸ ha)
    | some s =>
      simp only [step, if_pos hp, hl]
      exact nodup_keys_setA _ _ h
  · rw [step_of_not_passes cfg watched now p1 r (by simpa using hp)]; exact h

theorem step_preserves_inv (cfg : Config) (watched : List Nat) (now : ℚ) (p1 : P1)
    (r : Row)
    (h : ∀ e ∈ p1.sessions, (e : String × Session).2.first_seen ≤ e.2.last_seen ∧
      e.2.last_seen ≤ now) :
    ∀ e ∈ (step cfg watched now p1 r).sessions,
      e.2.first_seen ≤ e.2.last_seen ∧ e.2.last_seen ≤ now := by
  by_cases hp : row_passes cfg watched r
  · cases hl : lookupA p1.sessions (flow_key r) with
    | none =>
      intro e he
      simp only [step, if_pos hp, hl] at he
      rcases List.mem_append.mp he with h1 | h1
      · exact h e h1
      · simp only [List.mem_singleton] at h1
        subst h1
        exact ⟨le_refl now, le_refl now⟩
    | some s =>
      intro e he
      simp only [step, if_pos hp, hl] at he
      rcases mem_setA he with h1 | h1
      · exact h e h1
      · subst h1
        have hs := h _ (lookupA_mem hl)
        exact ⟨le_trans hs.1 hs.2, le_refl now⟩
  · rw [step_of_not_passes cfg watched now p1 r (by simpa using hp)]; exact h

theorem step_lookup_key_isSome (cfg : Config) (watched : List Nat) (now : ℚ)
    (p1 : P1) (r : Row) (hp : row_passes cfg watched r = true) :
    (lookupA (step cfg watched now p1 r).sessions (flow_key r)).isSome := by
  cases hl : lookupA p1.sessions (flow_key r) with
  | none => simp [step, hp, hl, lookupA_append, lookupA]
  | some s => simp [step, hp, hl, lookupA_setA_self]

theorem step_run_counter (cfg : Config) (watched : List Nat) (now : ℚ) (p1 : P1)
    (r : Row) (p : Nat) :
    lookupD (step cfg watched now p1 r).run p 0 +
      pcount (fun s => decide (s.dst_port = p)) p1.sessions =
    lookupD p1.run p 0 +
      pcount (fun s => decide (s.dst_port = p)) (step cfg watched now p1 r).sessions := by
  by_cases hp : row_passes cfg watched r
  · cases hl : lookupA p1.sessions (flow_key r) with
    | none =>
      simp only [step, if_pos hp, hl]
      by_cases hd : r.dport = p
      · subst hd
        simp [lookupD, lookupA_setA_self, pcount, List.filter_append]
        omega
      · rw [lookupD_setA_ne _ _ _ _ _ (Ne.symm hd)]
        simp [pcount, List.filter_append, hd]
    | some s =>
      simp only [step, if_pos hp, hl]
      have hc := countP_setA
        { s with state := r.state, timeout_s := r.timeout, last_seen := now }
        (fun x => decide (x.dst_port = p)) hl rfl
      simp only [pcount, hc]
  · rw [step_of_not_passes cfg watched now p1 r (by simpa using hp)]

theorem step_lph_counter (cfg : Config) (watched : List Nat) (now : ℚ) (p1 : P1)
    (r : Row) (ps : String) :
    lookupD (step cfg watched now p1 r).lph ps 0 +
      pcount (fun s => decide (toString s.dst_port = ps)) p1.sessions =
    lookupD p1.lph ps 0 +
      pcount (fun s => decide (toString s.dst_port = ps)) (step cfg watched now p1 r).sessions := by
  by_cases hp : row_passes cfg watched r
  · cases hl : lookupA p1.sessions (flow_key r) with
    | none =>
      simp only [step, if_pos hp, hl]
      by_cases hd : toString r.dport = ps
      · subst hd
        simp [lookupD, lookupA_setA_self, pcount, List.filter_append]
        omega
      · rw [lookupD_setA_ne _ _ _ _ _ (Ne.symm hd)]
        simp [pcount, List.filter_append, hd]
    | some s =>
      simp only [step, if_pos hp, hl]
      have hc := countP_setA
        { s with state := r.state, timeout_s := r.timeout, last_seen := now }
        (fun x => decide (toString x.dst_port = ps)) hl rfl
      simp only [pcount, hc]
  · rw [step_of_not_passes cfg watched now p1 r (by simpa using hp)]

/-! ### Lemmas about the whole per-row pass -/

theorem foldl_seen_mono (cfg : Config) (watched : List Nat) (now : ℚ)
    (rows : List Row) (p1 : P1) (k : String) (h : k ∈ p1.seen) :
    k ∈ (rows.foldl (step cfg watched now) p1).seen := by
  induction rows generalizing p1 with
  | nil => exact h
  | cons r rest ih =>
    rw [List.foldl_cons]
    exact ih _ ((mem_seen_step cfg watched now p1 r k).mpr (Or.inl h))

theorem mem_seen_foldl (cfg : Config) (watched : List Nat) (now : ℚ)
    (rows : List Row) (p1 : P1) (k : String) :
    k ∈ (rows.foldl (step cfg watched now) p1).seen ↔
      k ∈ p1.seen ∨ ∃ r ∈ rows, row_passes cfg watched r = true ∧ flow_key r = k := by
  induction rows generalizing p1 with
  | nil => simp
  | cons r rest ih =>
    rw [List.foldl_cons, ih, mem_seen_step]
    constructor
    · rintro ((h | h) | ⟨r', hr', h⟩)
      · exact Or.inl h
      · exact Or.inr ⟨r, List.mem_cons_self _ _, h⟩
      · exact Or.inr ⟨r', List.mem_cons_of_mem _ hr', h⟩
    · rintro (h | ⟨r', hr', h⟩)
      · exact Or.inl (Or.inl h)
      · rcases List.mem_cons.mp hr' with h' | h'
        · exact Or.inl (Or.inr (h' ▸ h))
        · exact Or.inr ⟨r', h', h⟩

theorem foldl_lookup_of_not_seen (cfg : Config) (watched : List Nat) (now : ℚ)
    (rows : List Row) (p1 : P1) (k : String)
    (h : k ∉ (rows.foldl (step cfg watched now) p1).seen) :
    lookupA (rows.foldl (step cfg watched now) p1).sessions k = lookupA p1.sessions k := by
  induction rows generalizing p1 with
  | nil => rfl
  | cons r rest ih =>
    rw [List.foldl_cons] at h ⊢
    have h1 : k ∉ (step cfg watched now p1 r).seen := fun hm =>
      h (foldl_seen_mono cfg watched now rest _ k hm)
    have h2 : ¬(row_passes cfg watched r = true ∧ flow_key r = k) := fun hq =>
      h1 ((mem_seen_step cfg watched now p1 r k).mpr (Or.inr hq))
    rw [ih _ h, step_sessions_lookup_other cfg watched now p1 r k h2]

theorem foldl_isSome_mono (cfg : Config) (watched : List Nat) (now : ℚ)
    (rows : List Row) (p1 : P1) (k : String) (h : (lookupA p1.sessions k).isSome) :
    (lookupA (rows.foldl (step cfg watched now) p1).sessions k).isSome := by
  induction rows generalizing p1 with
  | nil => exact h
  | cons r rest ih =>
    rw [List.foldl_cons]
    exact ih _ (step_sessions_isSome_mono cfg watched now p1 r k h)

theorem foldl_seen_isSome (cfg : Config) (watched : List Nat) (now : ℚ)
    (rows : List Row) (p1 : P1) (k : String)
    (h : k ∈ (rows.foldl (step cfg watched now) p1).seen) :
    k ∈ p1.seen ∨ (lookupA (rows.foldl (step cfg watched now) p1).sessions k).isSome := by
  induction rows generalizing p1 with
  | nil => exact Or.inl h
  | cons r rest ih =>
    rw [List.foldl_cons] at h ⊢
    rcases ih _ h with h1 | h1
    · rcases (mem_seen_step cfg watched now p1 r k).mp h1 with h2 | ⟨h2, h3⟩
      · exact Or.inl h2
      · exact Or.inr (foldl_isSome_mono cfg watched now rest _ k
          (h3 ▸ step_lookup_key_isSome cfg watched now p1 r h2))
    · exact Or.inr h1

theorem foldl_nodup_keys (cfg : Config) (watched : List Nat) (now : ℚ)
    (rows : List Row) (p1 : P1) (h : (p1.sessions.map Prod.fst).Nodup) :
    ((rows.foldl (step cfg watched now) p1).sessions.map Prod.fst).Nodup := by
  induction rows generalizing p1 with
  | nil => exact h
  | cons r rest ih =>
    rw [List.foldl_cons]
    exact ih _ (step_nodup_keys cfg watched now p1 r h)

theorem foldl_preserves_inv (cfg : Config) (watched : List Nat) (now : ℚ)
    (rows : List Row) (p1 : P1)
    (h : ∀ e ∈ p1.sessions, (e : String × Session).2.first_seen ≤ e.2.last_seen ∧
      e.2.last_seen ≤ now) :
    ∀ e ∈ (rows.foldl (step cfg watched now) p1).sessions,
      e.2.first_seen ≤ e.2.last_seen ∧ e.2.last_seen ≤ now := by
  induction rows generalizing p1 with
  | nil => exact h
  | cons r rest ih =>
    rw [List.foldl_cons]
    exact ih _ (step_preserves_inv cfg watched now p1 r h)

theorem foldl_first_seen (cfg : Config) (watched : List Nat) (now : ℚ)
    (rows : List Row) (p1 : P1) (k : String) (s : Session)
    (h : lookupA p1.sessions k = some s) :
    ∃ s', lookupA (rows.foldl (step cfg watched now) p1).sessions k = some s' ∧
      s'.first_seen = s.first_seen ∧ s'.key = s.key ∧ s'.src_ip = s.src_ip ∧
      s'.src_port = s.src_port ∧ s'.dst_ip = s.dst_ip ∧ s'.dst_port = s.dst_port := by
  induction rows generalizing p1 s with
  | nil => exact ⟨s, h, rfl, rfl, rfl, rfl, rfl, rfl⟩
  | cons r rest ih =>
    rw [List.foldl_cons]
    obtain ⟨s1, hs1, e1, e2, e3, e4, e5, e6⟩ := step_first_seen cfg watched now p1 r k s h
    obtain ⟨s2, hs2, f1, f2, f3, f4, f5, f6⟩ := ih _ s1 hs1
    exact ⟨s2, hs2, f1.trans e1, f2.trans e2, f3.trans e3, f4.trans e4,
      f5.trans e5, f6.trans e6⟩

theorem foldl_run_counter (cfg : Config) (watched : List Nat) (now : ℚ)
    (rows : List Row) (p1 : P1) (p : Nat) :
    lookupD (rows.foldl (step cfg watched now) p1).run p 0 +
      pcount (fun s => decide (s.dst_port = p)) p1.sessions =
    lookupD p1.run p 0 +
      pcount (fun s => decide (s.dst_port = p))
        (rows.foldl (step cfg watched now) p1).sessions := by
  induction rows generalizing p1 with
  | nil => rfl
  | cons r rest ih =>
    rw [List.foldl_cons]
    have h1 := step_run_counter cfg watched now p1 r p
    have h2 := ih (step cfg watched now p1 r)
    omega

theorem foldl_lph_counter (cfg : Config) (watched : List Nat) (now : ℚ)
    (rows : List Row) (p1 : P1) (ps : String) :
    lookupD (rows.foldl (step cfg watched now) p1).lph ps 0 +
      pcount (fun s => decide (toString s.dst_port = ps)) p1.sessions =
    lookupD p1.lph ps 0 +
      pcount (fun s => decide (toString s.dst_port = ps))
        (rows.foldl (step cfg watched now) p1).sessions := by
  induction rows generalizing p1 with
  | nil => rfl
  | cons r rest ih =>
    rw [List.foldl_cons]
    have h1 := step_lph_counter cfg watched now p1 r ps
    have h2 := ih (step cfg watched now p1 r)
    omega

/-! ### Lemmas about lookup through the expiry filter -/

theorem lookupA_filter_of_not_mem {l : List (String × Session)} {k : String}
    (keep : String × Session → Bool) (hk : k ∉ l.map Prod.fst) :
    lookupA (l.filter keep) k = none := by
  refine (lookupA_eq_none_iff _ _).mpr fun hmem => hk ?_
  obtain ⟨e, he, rfl⟩ := List.mem_map.mp hmem
  exact List.mem_map.mpr ⟨e, (List.mem_filter.mp he).1, rfl⟩

theorem lookupA_filter {l : List (String × Session)} {k : String} {s : Session}
    (keep : String × Session → Bool) (hnd : (l.map Prod.fst).Nodup)
    (h : lookupA l k = some s) :
    lookupA (l.filter keep) k = if keep (k, s) then some s else none := by
  induction l with
  | nil => simp [lookupA] at h
  | cons e t ih =>
    obtain ⟨e1, e2⟩ := e
    have hnd2 : (t.map Prod.fst).Nodup := (List.nodup_cons.mp (by simpa using hnd)).2
    have hnd1 : e1 ∉ t.map Prod.fst := (List.nodup_cons.mp (by simpa using hnd)).1
    by_cases he : e1 = k
    · subst he
      simp only [lookupA, if_true, eq_self_iff_true, Option.some.injEq] at h
      subst h
      cases hkeep : keep (e1, e2) with
      | true => simp [List.filter_cons, hkeep, lookupA]
      | false => simp [List.filter_cons, hkeep, lookupA_filter_of_not_mem keep hnd1]
    · simp only [lookupA, if_neg he] at h
      cases hkeep : keep (e1, e2) with
      | true => simp [List.filter_cons, hkeep, lookupA, he, ih hnd2 h]
      | false => simp [List.filter_cons, hkeep, ih hnd2 h]

/-! ### Reconciliation-pass level lemmas -/

theorem update_sessions_inv (cfg : Config) (portMap : Nat → Option String)
    (endedTs : String) (σ : AppState) (watched : List Nat) (rows : List Row)
    (now : ℚ)
    (h : ∀ e ∈ σ.sessions, (e : String × Session).2.first_seen ≤ e.2.last_seen ∧
      e.2.last_seen ≤ now) :
    ∀ e ∈ (update_sessions cfg portMap endedTs σ watched rows now).state.sessions,
      e.2.first_seen ≤ e.2.last_seen ∧ e.2.last_seen ≤ now ∧
      (e.1 ∈ (update_sessions cfg portMap endedTs σ watched rows now).seen ∨
        now - e.2.last_seen < cfg.grace) := by
  intro e he
  have he2 : e ∈ (phase1 cfg watched now σ rows).sessions ∧
      (!is_expired cfg.grace now (phase1 cfg watched now σ rows).seen e) = true := by
    simpa [update_sessions, List.mem_filter] using he
  have hP := foldl_preserves_inv cfg watched now rows
    { sessions := σ.sessions, seen := [], state_counts := [],
      run := σ.port_hits_run, lph := σ.stats.lifetime_port_hits } h e he2.1
  refine ⟨hP.1, hP.2, ?_⟩
  have hs := he2.2
  simp only [is_expired, Bool.not_and, Bool.not_not, Bool.or_eq_true,
    Bool.not_eq_true', decide_eq_true_eq, decide_eq_false_iff_not, not_le] at hs
  exact hs

theorem runPolls_inv (polls : List PollInput) (σ : AppState) (t T : ℚ)
    (hInv : ∀ e ∈ σ.sessions, (e : String × Session).2.first_seen ≤ e.2.last_seen ∧
      e.2.last_seen ≤ t)
    (htT : t ≤ T) (hub : ∀ q ∈ polls, q.now ≤ T) (hlb : ∀ q ∈ polls, t ≤ q.now)
    (hmono : (polls.map PollInput.now).Pairwise (· ≤ ·)) :
    ∀ e ∈ (runPolls σ polls).sessions,
      (e : String × Session).2.first_seen ≤ e.2.last_seen ∧ e.2.last_seen ≤ T := by
  induction polls generalizing σ t with
  | nil => exact fun e he => ⟨(hInv e he).1, le_trans (hInv e he).2 htT⟩
  | cons q qs ih =>
    have hq : ∀ e ∈ σ.sessions, (e : String × Session).2.first_seen ≤ e.2.last_seen ∧
        e.2.last_seen ≤ q.now :=
      fun e he => ⟨(hInv e he).1,
        le_trans (hInv e he).2 (hlb q (List.mem_cons_self _ _))⟩
    have h1 := update_sessions_inv q.cfg q.portMap q.endedTs σ q.watched q.rows q.now hq
    have hmono' : (∀ a ∈ qs, q.now ≤ a.now) ∧
        List.Pairwise (· ≤ ·) (qs.map PollInput.now) := by simpa using hmono
    exact ih ((do_poll σ q).state) q.now
      (fun e he => ⟨(h1 e he).1, (h1 e he).2.1⟩)
      (hub q (List.mem_cons_self _ _))
      (fun r hr => hub r (List.mem_cons_of_mem _ hr))
      (fun r hr => hmono'.1 r hr)
      hmono'.2

/-! ### Claim theorems -/

/-- C10: the private-address predicate returns true exactly for addresses
starting with `10.`, `192.168.`, `127.` or `169.254.`, or starting with
`172.` whose second dot-separated component parses as an integer in
`[16, 31]` (false when that component is absent or non-numeric); hence it
also hides loopback (`127.`) and link-local (`169.254.`) sources, and it is
exact on the `172.16/12` boundary. -/
theorem C10_private_predicate_characterization :
    (∀ ip, _is_private_ipv4 ip = private_ipv4_claim ip) ∧
    _is_private_ipv4 "127.0.0.1" = true ∧
    _is_private_ipv4 "169.254.7.7" = true ∧
    _is_private_ipv4 "172.16.0.1" = true ∧
    _is_private_ipv4 "172.31.255.255" = true ∧
    _is_private_ipv4 "172.32.0.1" = false ∧
    _is_private_ipv4 "172.15.0.1" = false ∧
    _is_private_ipv4 "8.8.8.8" = false := by
  refine ⟨fun ip => ?_, by decide, by decide, by decide, by decide, by decide,
    by decide, by decide⟩
  unfold _is_private_ipv4 private_ipv4_claim
  by_cases h1 : pyStartsWith ip "10." <;>
    by_cases h2 : pyStartsWith ip "192.168." <;>
    by_cases h3 : pyStartsWith ip "127." <;>
    by_cases h4 : pyStartsWith ip "169.254." <;>
    by_cases h5 : pyStartsWith ip "172." <;>
    simp [h1, h2, h3, h4, h5]

/-- C8: the finalizer computes `duration_s` as the floor of
`last_seen - first_seen` clamped below at zero, so it is never negative, for
every pair of timestamps. -/
theorem C8_duration_floored_nonneg (endedTs : String)
    (portMap : Nat → Option String) (sess : Session) :
    (mkEnded endedTs portMap sess).duration_s =
      max 0 ⌊sess.last_seen - sess.first_seen⌋ ∧
    0 ≤ (mkEnded endedTs portMap sess).duration_s := by
  have key : (⌊max 0 (sess.last_seen - sess.first_seen)⌋ : ℤ) =
      max 0 ⌊sess.last_seen - sess.first_seen⌋ := by
    rcases le_total (sess.last_seen - sess.first_seen) 0 with h | h
    · rw [max_eq_left h, max_eq_left (Int.floor_nonpos h)]
      exact Int.floor_zero
    · rw [max_eq_right h, max_eq_right (Int.floor_nonneg.mpr h)]
  refine ⟨key, ?_⟩
  show (0 : ℤ) ≤ ⌊max 0 (sess.last_seen - sess.first_seen)⌋
  rw [key]
  exact le_max_left _ _

/-- C9 counterexample: the claim says the reset leaves every field but the
lifetime counters unchanged, but the save it triggers rewrites `updated`;
at a concrete document the result differs from the claimed one. -/
theorem C9_counterexample :
    reset_lifetime_hits
      { version := "0.6.7", created := "2024-01-01T00:00:00",
        updated := "2024-01-01T00:00:00", notes := [], theme := "amber",
        lifetime_port_hits := [("22", 5)], ended_history := [] }
      "2024-01-02T00:00:00" ≠
    { version := "0.6.7", created := "2024-01-01T00:00:00",
      updated := "2024-01-01T00:00:00", notes := [], theme := "amber",
      lifetime_port_hits := [], ended_history := [] } := by
  decide

/-- C9 amended: the reset empties the lifetime counters and leaves
`ended_history`, `notes`, `created` and `theme` unchanged; the save it
performs stamps `version` with the current `VERSION` and `updated` with the
save time. -/
theorem C9_reset_frame (d : Stats) (nowStr : String) :
    (reset_lifetime_hits d nowStr).lifetime_port_hits = [] ∧
    (reset_lifetime_hits d nowStr).ended_history = d.ended_history ∧
    (reset_lifetime_hits d nowStr).notes = d.notes ∧
    (reset_lifetime_hits d nowStr).created = d.created ∧
    (reset_lifetime_hits d nowStr).theme = d.theme ∧
    (reset_lifetime_hits d nowStr).version = VERSION ∧
    (reset_lifetime_hits d nowStr).updated = nowStr :=
  ⟨rfl, rfl, rfl, rfl, rfl, rfl, rfl⟩

/-- C4: a flow record failing any of the four discard tests (unwatched
destination port; private source while hide-private; admin-excluded port
while hide-admin; non-ESTABLISHED state in established-only mode) leaves
the per-row loop state completely unchanged: no session, no counter, no
state count, no seen key. -/
theorem C4_discard_filters (cfg : Config) (watched : List Nat) (now : ℚ)
    (p1 : P1) (r : Row)
    (h : r.dport ∉ watched ∨
      (cfg.hide_private = true ∧ _is_private_ipv4 r.src = true) ∨
      (cfg.hide_admin = true ∧ r.dport ∈ DEFAULT_EXCLUDE_ADMIN_PORTS) ∨
      (cfg.mode = "EST" ∧ r.state ≠ "ESTABLISHED")) :
    step cfg watched now p1 r = p1 := by
  apply step_of_not_passes
  rcases h with h | ⟨h1, h2⟩ | ⟨h1, h2⟩ | ⟨h1, h2⟩ <;> simp_all [row_passes]

/-- C4 witness: with hide-admin active, a flow to admin port 64295 is
discarded even though 64295 is in the watched set. -/
theorem C4_witness :
    ((64295 : Nat) ∈ [22, 80, 64295] ∧
      (⟨true, true, "ALL", 8, 50⟩ : Config).hide_admin = true ∧
      (64295 : Nat) ∈ DEFAULT_EXCLUDE_ADMIN_PORTS) ∧
    step ⟨true, true, "ALL", 8, 50⟩ [22, 80, 64295] 0 ⟨[], [], [], [], []⟩
      ⟨30, "ESTABLISHED", "203.0.113.9", "198.51.100.1", 4444, 64295⟩ =
      ⟨[], [], [], [], []⟩ :=
  ⟨⟨by decide, rfl, by decide⟩,
    C4_discard_filters _ _ _ _ _ (Or.inr (Or.inr (Or.inl ⟨rfl, by decide⟩)))⟩

/-- C7: `load_stats` is total and never yields a failure: a missing file, an
unparsable file, and a parsed non-object all produce a freshly initialized
document (empty counters, empty history), and in both failure cases the
document's notes record the load failure. -/
theorem C7_load_never_fails (nowStr err : String) (j : Json)
    (hj : j.isObj = false) :
    load_stats .absent nowStr = stats_to_json (freshStats nowStr []) ∧
    load_stats (.unparsable err) nowStr =
      stats_to_json (freshStats nowStr [failNote err]) ∧
    load_stats (.parsed j) nowStr =
      stats_to_json (freshStats nowStr [failNote "ValueError('stats not dict')"]) ∧
    (∀ ns, (freshStats nowStr ns).lifetime_port_hits = [] ∧
      (freshStats nowStr ns).ended_history = []) ∧
    (freshStats nowStr [failNote err]).notes = [failNote err] := by
  refine ⟨rfl, rfl, ?_, fun ns => ⟨rfl, rfl⟩, rfl⟩
  cases j <;> simp_all [load_stats, Json.isObj]

/-- C7 witness: a parsed non-object (the number 0) yields the fresh document
with the parse failure recorded. -/
theorem C7_witness :
    (Json.num 0).isObj = false ∧
    load_stats (.parsed (.num 0)) "t" =
      stats_to_json (freshStats "t" [failNote "ValueError('stats not dict')"]) :=
  ⟨rfl, (C7_load_never_fails "t" "e" (.num 0) rfl).2.2.1⟩

theorem load_stats_parsed_encode (s : Stats) (t : String) :
    load_stats (.parsed (stats_to_json s)) t =
      stats_to_json { s with version := VERSION } := rfl

/-- C6: saving a stats document and loading the written file back yields the
same document, the `updated` timestamp (stamped by the save) being the only
changed field. -/
theorem C6_save_load_roundtrip (d : Stats) (tSave tLoad : String)
    (h : d.version = VERSION) :
    load_stats (.parsed (save_stats d tSave).2) tLoad =
      stats_to_json { d with updated := tSave } := by
  have h1 : (save_stats d tSave).2 =
      stats_to_json { d with version := VERSION, updated := tSave } := rfl
  rw [h1, load_stats_parsed_encode]
  cases d with
  | mk v c u n th l e =>
    simp only at h
    subst h
    rfl

/-- C6 witness: round trip at a concrete document. -/
theorem C6_witness :
    ({ version := "0.6.7", created := "c", updated := "u", notes := ["n"],
       theme := "matrix", lifetime_port_hits := [("22", 3)],
       ended_history := [] } : Stats).version = VERSION ∧
    load_stats (.parsed (save_stats
      { version := "0.6.7", created := "c", updated := "u", notes := ["n"],
        theme := "matrix", lifetime_port_hits := [("22", 3)],
        ended_history := [] } "t1").2) "t2" =
      stats_to_json
        { version := "0.6.7", created := "c", updated := "t1", notes := ["n"],
          theme := "matrix", lifetime_port_hits := [("22", 3)],
          ended_history := [] } :=
  ⟨rfl, C6_save_load_roundtrip _ "t1" "t2" rfl⟩

/-- C2: after every reconciliation pass the stored ended-history has at most
`history_n` entries, is sorted by `duration_s` descending, contains only
entries of the previous history or finalizations of sessions ended in this
pass, and is exactly a maximal-by-duration selection from those candidates:
its length is `min history_n` (number of candidates), and the candidates it
discards all have duration at most that of every retained entry, so the
retained entries are the top `history_n` by duration and the eviction is
duration-ranked, not FIFO. -/
theorem C2_history_bounded_sorted (cfg : Config) (portMap : Nat → Option String)
    (endedTs : String) (σ : AppState) (watched : List Nat) (rows : List Row)
    (now : ℚ) :
    ((update_sessions cfg portMap endedTs σ watched rows now).state.stats.ended_history).length ≤
      cfg.history_n ∧
    ((update_sessions cfg portMap endedTs σ watched rows now).state.stats.ended_history).length =
      min cfg.history_n
        (σ.stats.ended_history ++
          ((update_sessions cfg portMap endedTs σ watched rows now).ended.map
            (mkEnded endedTs portMap))).length ∧
    List.Pairwise (fun a b => b.duration_s ≤ a.duration_s)
      (update_sessions cfg portMap endedTs σ watched rows now).state.stats.ended_history ∧
    (∀ e ∈ (update_sessions cfg portMap endedTs σ watched rows now).state.stats.ended_history,
      e ∈ σ.stats.ended_history ∨
        ∃ sess ∈ (update_sessions cfg portMap endedTs σ watched rows now).ended,
          e = mkEnded endedTs portMap sess) ∧
    ∃ dropped : List EndedRec,
      ((update_sessions cfg portMap endedTs σ watched rows now).state.stats.ended_history ++
          dropped).Perm
        (σ.stats.ended_history ++
          ((update_sessions cfg portMap endedTs σ watched rows now).ended.map
            (mkEnded endedTs portMap))) ∧
      ∀ d ∈ dropped,
        ∀ r ∈ (update_sessions cfg portMap endedTs σ watched rows now).state.stats.ended_history,
          d.duration_s ≤ r.duration_s := by
  have hrepr : (update_sessions cfg portMap endedTs σ watched rows now).state.stats.ended_history =
      ((σ.stats.ended_history ++
        ((update_sessions cfg portMap endedTs σ watched rows now).ended.map
          (mkEnded endedTs portMap))).mergeSort
        (fun a b => decide (b.duration_s ≤ a.duration_s))).take cfg.history_n := rfl
  have hs := @List.sorted_mergeSort EndedRec
    (fun a b => decide (b.duration_s ≤ a.duration_s))
    (fun a b c hab hbc => by
      simp only [decide_eq_true_eq] at hab hbc ⊢
      exact le_trans hbc hab)
    (fun a b => by
      simp only [Bool.or_eq_true, decide_eq_true_eq]
      exact le_total _ _)
    (σ.stats.ended_history ++
      ((update_sessions cfg portMap endedTs σ watched rows now).ended.map
        (mkEnded endedTs portMap)))
  refine ⟨?_, ?_, ?_, ?_, ?_⟩
  · rw [hrepr]
    exact List.length_take_le _ _
  · rw [hrepr, List.length_take,
      (List.mergeSort_perm (σ.stats.ended_history ++
        ((update_sessions cfg portMap endedTs σ watched rows now).ended.map
          (mkEnded endedTs portMap)))
        (fun a b => decide (b.duration_s ≤ a.duration_s))).length_eq]
  · rw [hrepr]
    exact (List.Pairwise.sublist (List.take_sublist _ _) hs).imp
      (fun h => by simpa using h)
  · intro e he
    rw [hrepr] at he
    have h1 := List.take_subset _ _ he
    have h2 := (List.mergeSort_perm _ _).mem_iff.mp h1
    rcases List.mem_append.mp h2 with h3 | h3
    · exact Or.inl h3
    · obtain ⟨sess, hsess, rfl⟩ := List.mem_map.mp h3
      exact Or.inr ⟨sess, hsess, rfl⟩
  · refine ⟨((σ.stats.ended_history ++
      ((update_sessions cfg portMap endedTs σ watched rows now).ended.map
        (mkEnded endedTs portMap))).mergeSort
      (fun a b => decide (b.duration_s ≤ a.duration_s))).drop cfg.history_n,
      ?_, ?_⟩
    · rw [hrepr, List.take_append_drop]
      exact List.mergeSort_perm _ _
    · intro d hd r hr
      rw [hrepr] at hr
      have hs2 := hs
      rw [← List.take_append_drop cfg.history_n
        ((σ.stats.ended_history ++
          ((update_sessions cfg portMap endedTs σ watched rows now).ended.map
            (mkEnded endedTs portMap))).mergeSort
          (fun a b => decide (b.duration_s ≤ a.duration_s)))] at hs2
      have := (List.pairwise_append.mp hs2).2.2 r hr d hd
      simpa using this

/-- C2 witness: the bound, exact fullness, sortedness, provenance and
duration-ranked eviction of the stored history at a concrete pass. -/
theorem C2_witness :
    ((update_sessions ⟨true, true, "ALL", 8, 50⟩ (fun _ => none) "ts"
      ⟨[], [], ⟨"0.6.7", "c", "u", [], "amber", [], []⟩⟩ [22] [] 0).state.stats.ended_history).length ≤
      (⟨true, true, "ALL", 8, 50⟩ : Config).history_n ∧
    ((update_sessions ⟨true, true, "ALL", 8, 50⟩ (fun _ => none) "ts"
      ⟨[], [], ⟨"0.6.7", "c", "u", [], "amber", [], []⟩⟩ [22] [] 0).state.stats.ended_history).length =
      min (⟨true, true, "ALL", 8, 50⟩ : Config).history_n
        ((⟨[], [], ⟨"0.6.7", "c", "u", [], "amber", [], []⟩⟩ : AppState).stats.ended_history ++
          ((update_sessions ⟨true, true, "ALL", 8, 50⟩ (fun _ => none) "ts"
            ⟨[], [], ⟨"0.6.7", "c", "u", [], "amber", [], []⟩⟩ [22] [] 0).ended.map
            (mkEnded "ts" (fun _ => none)))).length ∧
    List.Pairwise (fun a b => b.duration_s ≤ a.duration_s)
      (update_sessions ⟨true, true, "ALL", 8, 50⟩ (fun _ => none) "ts"
        ⟨[], [], ⟨"0.6.7", "c", "u", [], "amber", [], []⟩⟩ [22] [] 0).state.stats.ended_history ∧
    (∀ e ∈ (update_sessions ⟨true, true, "ALL", 8, 50⟩ (fun _ => none) "ts"
        ⟨[], [], ⟨"0.6.7", "c", "u", [], "amber", [], []⟩⟩ [22] [] 0).state.stats.ended_history,
      e ∈ (⟨[], [], ⟨"0.6.7", "c", "u", [], "amber", [], []⟩⟩ : AppState).stats.ended_history ∨
        ∃ sess ∈ (update_sessions ⟨true, true, "ALL", 8, 50⟩ (fun _ => none) "ts"
          ⟨[], [], ⟨"0.6.7", "c", "u", [], "amber", [], []⟩⟩ [22] [] 0).ended,
          e = mkEnded "ts" (fun _ => none) sess) ∧
    ∃ dropped : List EndedRec,
      ((update_sessions ⟨true, true, "ALL", 8, 50⟩ (fun _ => none) "ts"
          ⟨[], [], ⟨"0.6.7", "c", "u", [], "amber", [], []⟩⟩ [22] [] 0).state.stats.ended_history ++
          dropped).Perm
        ((⟨[], [], ⟨"0.6.7", "c", "u", [], "amber", [], []⟩⟩ : AppState).stats.ended_history ++
          ((update_sessions ⟨true, true, "ALL", 8, 50⟩ (fun _ => none) "ts"
            ⟨[], [], ⟨"0.6.7", "c", "u", [], "amber", [], []⟩⟩ [22] [] 0).ended.map
            (mkEnded "ts" (fun _ => none)))) ∧
      ∀ d ∈ dropped,
        ∀ r ∈ (update_sessions ⟨true, true, "ALL", 8, 50⟩ (fun _ => none) "ts"
            ⟨[], [], ⟨"0.6.7", "c", "u", [], "amber", [], []⟩⟩ [22] [] 0).state.stats.ended_history,
          d.duration_s ≤ r.duration_s :=
  C2_history_bounded_sorted ⟨true, true, "ALL", 8, 50⟩ (fun _ => none) "ts"
    ⟨[], [], ⟨"0.6.7", "c", "u", [], "amber", [], []⟩⟩ [22] [] 0

/-- C5: over any poll sequence with non-decreasing clock values, every
session in the store after the last reconciliation pass satisfies
`last_seen >= first_seen`, and its key was observed in that pass or it is
still within the grace window of its last observation. -/
theorem C5_sequence_invariant (stats0 : Stats) (rest : List PollInput)
    (p : PollInput)
    (hmono : ((rest ++ [p]).map PollInput.now).Pairwise (· ≤ ·)) :
    ∀ e ∈ (runPolls (initState stats0) (rest ++ [p])).sessions,
      (e : String × Session).2.first_seen ≤ e.2.last_seen ∧
      (e.1 ∈ (do_poll (runPolls (initState stats0) rest) p).seen ∨
        p.now - e.2.last_seen < p.cfg.grace) := by
  have hsplit : runPolls (initState stats0) (rest ++ [p]) =
      (do_poll (runPolls (initState stats0) rest) p).state := by
    simp [runPolls, List.foldl_append]
  have hmono' : List.Pairwise (· ≤ ·) (rest.map PollInput.now ++ [p.now]) := by
    simpa using hmono
  have hub : ∀ q ∈ rest, q.now ≤ p.now := by
    intro q hq
    exact (List.pairwise_append.mp hmono').2.2 q.now
      (List.mem_map_of_mem _ hq) p.now (List.mem_singleton_self _)
  have hpre : ∀ e ∈ (runPolls (initState stats0) rest).sessions,
      (e : String × Session).2.first_seen ≤ e.2.last_seen ∧
      e.2.last_seen ≤ p.now := by
    cases rest with
    | nil => intro e he; simp [runPolls, initState] at he
    | cons q0 qs =>
      have hrest : List.Pairwise (· ≤ ·) ((q0 :: qs).map PollInput.now) :=
        (List.pairwise_append.mp hmono').1
      have hrest' : (∀ a ∈ qs, q0.now ≤ a.now) ∧
          List.Pairwise (· ≤ ·) (qs.map PollInput.now) := by simpa using hrest
      refine runPolls_inv (q0 :: qs) (initState stats0) q0.now p.now ?_ ?_ ?_ ?_ hrest
      · intro e he; simp [initState] at he
      · exact hub q0 (List.mem_cons_self _ _)
      · exact fun q hq => hub q hq
      · intro q hq
        rcases List.mem_cons.mp hq with h | h
        · exact h ▸ le_refl _
        · exact hrest'.1 q h
  rw [hsplit]
  intro e he
  have h1 := update_sessions_inv p.cfg p.portMap p.endedTs
    (runPolls (initState stats0) rest) p.watched p.rows p.now hpre e he
  exact ⟨h1.1, h1.2.2⟩

/-- C5 witness: the invariant at a concrete one-poll sequence. -/
theorem C5_witness :
    ((([] ++ [(⟨⟨true, true, "ALL", 8, 50⟩, fun _ => none, "ts", [22], [], 0⟩ :
        PollInput)]).map PollInput.now).Pairwise (· ≤ ·)) ∧
    ∀ e ∈ (runPolls (initState ⟨"0.6.7", "c", "u", [], "amber", [], []⟩)
        ([] ++ [(⟨⟨true, true, "ALL", 8, 50⟩, fun _ => none, "ts", [22], [], 0⟩ :
          PollInput)])).sessions,
      (e : String × Session).2.first_seen ≤ e.2.last_seen ∧
      (e.1 ∈ (do_poll (runPolls (initState ⟨"0.6.7", "c", "u", [], "amber", [], []⟩) [])
          (⟨⟨true, true, "ALL", 8, 50⟩, fun _ => none, "ts", [22], [], 0⟩ :
            PollInput)).seen ∨
        (⟨⟨true, true, "ALL", 8, 50⟩, fun _ => none, "ts", [22], [], 0⟩ :
          PollInput).now - e.2.last_seen <
          (⟨⟨true, true, "ALL", 8, 50⟩, fun _ => none, "ts", [22], [], 0⟩ :
            PollInput).cfg.grace) :=
  ⟨by simp, C5_sequence_invariant ⟨"0.6.7", "c", "u", [], "amber", [], []⟩ []
    ⟨⟨true, true, "ALL", 8, 50⟩, fun _ => none, "ts", [22], [], 0⟩ (by simp)⟩

/-- C1: a tracked session is removed from the store and finalized (placed on
this pass's ended list, which feeds the history) exactly when its key is not
among the keys observed in the poll and `now - last_seen >= grace`; when its
key is missing but still within the grace window, it stays in the store
unchanged. -/
theorem C1_finalize_exactly_on_expiry (cfg : Config)
    (portMap : Nat → Option String) (endedTs : String) (σ : AppState)
    (watched : List Nat) (rows : List Row) (now : ℚ) (k : String) (s : Session)
    (hnd : (σ.sessions.map Prod.fst).Nodup)
    (hs : lookupA σ.sessions k = some s) :
    ((k ∉ (update_sessions cfg portMap endedTs σ watched rows now).seen ∧
        cfg.grace ≤ now - s.last_seen) ↔
      (lookupA (update_sessions cfg portMap endedTs σ watched rows now).state.sessions k = none ∧
        s ∈ (update_sessions cfg portMap endedTs σ watched rows now).ended)) ∧
    ((k ∉ (update_sessions cfg portMap endedTs σ watched rows now).seen ∧
        now - s.last_seen < cfg.grace) →
      lookupA (update_sessions cfg portMap endedTs σ watched rows now).state.sessions k = some s) := by
  have hseen : (update_sessions cfg portMap endedTs σ watched rows now).seen =
      (phase1 cfg watched now σ rows).seen := rfl
  have hsess : (update_sessions cfg portMap endedTs σ watched rows now).state.sessions =
      (phase1 cfg watched now σ rows).sessions.filter
        (fun e => !is_expired cfg.grace now (phase1 cfg watched now σ rows).seen e) := rfl
  have hended : (update_sessions cfg portMap endedTs σ watched rows now).ended =
      ((phase1 cfg watched now σ rows).sessions.filter
        (is_expired cfg.grace now (phase1 cfg watched now σ rows).seen)).map Prod.snd := rfl
  have hndp : ((phase1 cfg watched now σ rows).sessions.map Prod.fst).Nodup :=
    foldl_nodup_keys cfg watched now rows _ hnd
  have hlp : k ∉ (phase1 cfg watched now σ rows).seen →
      lookupA (phase1 cfg watched now σ rows).sessions k = some s := fun hk =>
    (foldl_lookup_of_not_seen cfg watched now rows
      { sessions := σ.sessions, seen := [], state_counts := [],
        run := σ.port_hits_run, lph := σ.stats.lifetime_port_hits } k hk).trans hs
  constructor
  · constructor
    · rintro ⟨hk, hg⟩
      rw [hseen] at hk
      have hl := hlp hk
      have hexp : is_expired cfg.grace now (phase1 cfg watched now σ rows).seen (k, s) = true := by
        simp [is_expired, hk, hg]
      refine ⟨?_, ?_⟩
      · rw [hsess, lookupA_filter _ hndp hl]
        simp [hexp]
      · rw [hended]
        exact List.mem_map.mpr ⟨(k, s), List.mem_filter.mpr ⟨lookupA_mem hl, hexp⟩, rfl⟩
    · rintro ⟨hnone, hend⟩
      rw [hseen]
      rw [hsess] at hnone
      by_cases hk : k ∈ (phase1 cfg watched now σ rows).seen
      · exfalso
        rcases foldl_seen_isSome cfg watched now rows
          { sessions := σ.sessions, seen := [], state_counts := [],
            run := σ.port_hits_run, lph := σ.stats.lifetime_port_hits } k hk with h | h
        · simp at h
        · obtain ⟨s1, hs1⟩ := Option.isSome_iff_exists.mp h
          rw [lookupA_filter _ hndp hs1] at hnone
          simp [is_expired, hk] at hnone
      · have hl := hlp hk
        refine ⟨hk, ?_⟩
        by_contra hlt
        rw [lookupA_filter _ hndp hl] at hnone
        simp [is_expired, hk, not_le.mp hlt] at hnone
  · rintro ⟨hk, hlt⟩
    rw [hseen] at hk
    have hl := hlp hk
    rw [hsess, lookupA_filter _ hndp hl]
    simp [is_expired, hk, not_le.mpr hlt]

/-- C1 witness: at time 20 with an empty snapshot, the session last seen at
time 5 (gap 15 >= grace 8) is removed and finalized; the theorem's
hypotheses are discharged at the concrete store. -/
theorem C1_witness :
    ((sampleApp.sessions.map Prod.fst).Nodup ∧
      lookupA sampleApp.sessions sampleSession.key = some sampleSession) ∧
    (((sampleSession.key ∉
          (update_sessions sampleCfg (fun _ => none) "ts" sampleApp [22] [] 20).seen ∧
        sampleCfg.grace ≤ 20 - sampleSession.last_seen) ↔
      (lookupA (update_sessions sampleCfg (fun _ => none) "ts" sampleApp [22] []
          20).state.sessions sampleSession.key = none ∧
        sampleSession ∈
          (update_sessions sampleCfg (fun _ => none) "ts" sampleApp [22] [] 20).ended)) ∧
    ((sampleSession.key ∉
          (update_sessions sampleCfg (fun _ => none) "ts" sampleApp [22] [] 20).seen ∧
        20 - sampleSession.last_seen < sampleCfg.grace) →
      lookupA (update_sessions sampleCfg (fun _ => none) "ts" sampleApp [22] []
          20).state.sessions sampleSession.key = some sampleSession)) :=
  ⟨⟨by simp [sampleApp], rfl⟩,
    C1_finalize_exactly_on_expiry sampleCfg (fun _ => none) "ts" sampleApp [22] [] 20
      sampleSession.key sampleSession (by simp [sampleApp]) rfl⟩

/-- C3: a surviving record with an unseen key creates a session with
`first_seen = last_seen = now` and bumps the run and lifetime counters of
its destination port by exactly one; a surviving record whose key is already
tracked leaves both counter maps untouched and only rewrites `state`,
`timeout_s` and `last_seen` (never `first_seen`); over a whole pass each
counter grows exactly by the number of store entries gained for that port,
so duplicates within a poll and re-sightings in later polls never
re-increment. -/
theorem C3_first_sight_counting (cfg : Config) (watched : List Nat) (now : ℚ) :
    (∀ (p1 : P1) (r : Row), row_passes cfg watched r = true →
      lookupA p1.sessions (flow_key r) = none →
      lookupA (step cfg watched now p1 r).sessions (flow_key r) =
        some { key := flow_key r, src_ip := r.src, src_port := r.sport,
               dst_ip := r.dst, dst_port := r.dport, state := r.state,
               timeout_s := r.timeout, first_seen := now, last_seen := now } ∧
      lookupD (step cfg watched now p1 r).run r.dport 0 =
        lookupD p1.run r.dport 0 + 1 ∧
      lookupD (step cfg watched now p1 r).lph (toString r.dport) 0 =
        lookupD p1.lph (toString r.dport) 0 + 1) ∧
    (∀ (p1 : P1) (r : Row) (s : Session), row_passes cfg watched r = true →
      lookupA p1.sessions (flow_key r) = some s →
      (step cfg watched now p1 r).run = p1.run ∧
      (step cfg watched now p1 r).lph = p1.lph ∧
      lookupA (step cfg watched now p1 r).sessions (flow_key r) =
        some { s with state := r.state, timeout_s := r.timeout, last_seen := now }) ∧
    (∀ (σ : AppState) (rows : List Row) (p : Nat),
      lookupD (phase1 cfg watched now σ rows).run p 0 +
        pcount (fun s => decide (s.dst_port = p)) σ.sessions =
      lookupD σ.port_hits_run p 0 +
        pcount (fun s => decide (s.dst_port = p)) (phase1 cfg watched now σ rows).sessions) ∧
    (∀ (σ : AppState) (rows : List Row) (ps : String),
      lookupD (phase1 cfg watched now σ rows).lph ps 0 +
        pcount (fun s => decide (toString s.dst_port = ps)) σ.sessions =
      lookupD σ.stats.lifetime_port_hits ps 0 +
        pcount (fun s => decide (toString s.dst_port = ps))
          (phase1 cfg watched now σ rows).sessions) := by
  refine ⟨fun p1 r hp hl => ⟨?_, ?_, ?_⟩, fun p1 r s hp hl => ⟨?_, ?_, ?_⟩,
    fun σ rows p => ?_, fun σ rows ps => ?_⟩
  · simp [step, hp, hl, lookupA_append, lookupA]
  · simp [step, hp, hl, lookupD_setA_self]
  · simp [step, hp, hl, lookupD_setA_self]
  · simp [step, hp, hl]
  · simp [step, hp, hl]
  · simp [step, hp, hl, lookupA_setA_self]
  · exact foldl_run_counter cfg watched now rows
      { sessions := σ.sessions, seen := [], state_counts := [],
        run := σ.port_hits_run, lph := σ.stats.lifetime_port_hits } p
  · exact foldl_lph_counter cfg watched now rows
      { sessions := σ.sessions, seen := [], state_counts := [],
        run := σ.port_hits_run, lph := σ.stats.lifetime_port_hits } ps

/-- C3 witness: at a concrete surviving row, the create case (key unseen in
an empty loop state) and the update case (key already tracked) of the
theorem, with both hypotheses discharged concretely. -/
theorem C3_witness :
    (row_passes sampleCfg [22] sampleRow = true ∧
      lookupA (⟨[], [], [], [], []⟩ : P1).sessions (flow_key sampleRow) = none ∧
      lookupA ([(flow_key sampleRow, sampleSession)] : List (String × Session))
        (flow_key sampleRow) = some sampleSession) ∧
    (lookupA (step sampleCfg [22] 20 ⟨[], [], [], [], []⟩ sampleRow).sessions
        (flow_key sampleRow) =
      some { key := flow_key sampleRow, src_ip := sampleRow.src,
             src_port := sampleRow.sport, dst_ip := sampleRow.dst,
             dst_port := sampleRow.dport, state := sampleRow.state,
             timeout_s := sampleRow.timeout, first_seen := 20, last_seen := 20 } ∧
      lookupD (step sampleCfg [22] 20 ⟨[], [], [], [], []⟩ sampleRow).run
        sampleRow.dport 0 =
        lookupD (⟨[], [], [], [], []⟩ : P1).run sampleRow.dport 0 + 1 ∧
      lookupD (step sampleCfg [22] 20 ⟨[], [], [], [], []⟩ sampleRow).lph
        (toString sampleRow.dport) 0 =
        lookupD (⟨[], [], [], [], []⟩ : P1).lph (toString sampleRow.dport) 0 + 1) ∧
    ((step sampleCfg [22] 20
        ⟨[(flow_key sampleRow, sampleSession)], [], [], [], []⟩ sampleRow).run =
      (⟨[(flow_key sampleRow, sampleSession)], [], [], [], []⟩ : P1).run ∧
      (step sampleCfg [22] 20
        ⟨[(flow_key sampleRow, sampleSession)], [], [], [], []⟩ sampleRow).lph =
      (⟨[(flow_key sampleRow, sampleSession)], [], [], [], []⟩ : P1).lph ∧
      lookupA (step sampleCfg [22] 20
        ⟨[(flow_key sampleRow, sampleSession)], [], [], [], []⟩ sampleRow).sessions
        (flow_key sampleRow) =
      some ({ sampleSession with
                state := sampleRow.state,
                timeout_s := sampleRow.timeout,
                last_seen := 20 } : Session)) :=
  ⟨⟨by decide, rfl, rfl⟩,
    (C3_first_sight_counting sampleCfg [22] 20).1 ⟨[], [], [], [], []⟩ sampleRow
      (by decide) rfl,
    (C3_first_sight_counting sampleCfg [22] 20).2.1
      ⟨[(flow_key sampleRow, sampleSession)], [], [], [], []⟩ sampleRow
      sampleSession (by decide) rfl⟩

end TarpitWatch
